import Mathlib

/-!
Verification of the pipeline stage store, prerequisite evaluator and
action-composition logic of the engine/api pipeline package.

The Go source is shallowly embedded: the database tables of one pipeline
become an explicit state record, every SQL statement becomes a pure
transformation of that record, and fallible steps return Except values.
Go slices that are mutated through shared backing arrays are modelled by
returning the post-call array explicitly.
-/

namespace CDS

/-- A prerequisite row as carried on an sdk.Stage: a parameter name and an
expected value pattern. -/
structure Prerequisite where
  parameter : String
  expectedValue : String
deriving DecidableEq, Repr

/-- The sdk.Stage structure as used by the store functions: identity, owning
pipeline, name, build order, enabled flag and the prerequisite list. -/
structure Stage where
  id : Nat
  pipelineId : Nat
  name : String
  buildOrder : Int
  enabled : Bool
  prerequisites : List Prerequisite
deriving DecidableEq, Repr

/-- One row of the pipeline_stage table (for a single pipeline). -/
structure StageRow where
  id : Nat
  name : String
  buildOrder : Int
  enabled : Bool
deriving DecidableEq, Repr

/-- One row of the pipeline_stage_prerequisite table. -/
structure PrereqRow where
  stageId : Nat
  parameter : String
  expectedValue : String
deriving DecidableEq, Repr

/-- One row of the pipeline_action table: the placement of an action on a
stage. Only the keys matter for the claims considered here. -/
structure PlacementRow where
  stageId : Nat
  placementId : Nat
deriving DecidableEq, Repr

/-- The stored state of one pipeline: its stage rows, prerequisite rows,
action placement rows, and the last_modified stamp of the pipeline row. -/
structure PipelineState where
  stages : List StageRow
  prereqs : List PrereqRow
  placements : List PlacementRow
  lastModified : Nat
deriving DecidableEq, Repr

/-- The moveUpStages function: UPDATE pipeline_stage SET
build_order = build_order+1 WHERE build_order < oldPosition AND
build_order >= newPosition AND pipeline_id = the pipeline. -/
def moveUpStages (oldPosition newPosition : Int) (st : PipelineState) : PipelineState :=
  { st with stages := st.stages.map (fun r =>
      if r.buildOrder < oldPosition ∧ newPosition ≤ r.buildOrder then
        { r with buildOrder := r.buildOrder + 1 }
      else r) }

/-- The moveDownStages function: UPDATE pipeline_stage SET
build_order = build_order-1 WHERE build_order <= newPosition AND
build_order > oldPosition AND pipeline_id = the pipeline. -/
def moveDownStages (oldPosition newPosition : Int) (st : PipelineState) : PipelineState :=
  { st with stages := st.stages.map (fun r =>
      if r.buildOrder ≤ newPosition ∧ oldPosition < r.buildOrder then
        { r with buildOrder := r.buildOrder - 1 }
      else r) }

/-- The deleteStagePrerequisites function: DELETE FROM
pipeline_stage_prerequisite WHERE pipeline_stage_id = stageId. -/
def deleteStagePrerequisites (stageId : Nat) (st : PipelineState) : PipelineState :=
  { st with prereqs := st.prereqs.filter (fun p => p.stageId ≠ stageId) }

/-- Modelled from the spec: UpdatePipelineLastModified is defined outside the
source under study; the spec states that it updates the owning pipeline
last_modified stamp. The stamp value is passed in as the current time. -/
def UpdatePipelineLastModified (now : Nat) (st : PipelineState) : PipelineState :=
  { st with lastModified := now }

/-- The InsertStagePrequisites function: inserts one prerequisite row per
entry of the stage prerequisite list, then unconditionally calls
UpdatePipelineLastModified. -/
def InsertStagePrequisites (now : Nat) (s : Stage) (st : PipelineState) : PipelineState :=
  UpdatePipelineLastModified now
    { st with prereqs :=
        st.prereqs ++ s.prerequisites.map (fun p => ⟨s.id, p.parameter, p.expectedValue⟩) }

/-- The InsertStage function: sets Enabled to true, inserts the stage row
obtaining a generated identity newId, then inserts the prerequisites. -/
def InsertStage (now : Nat) (newId : Nat) (s : Stage) (st : PipelineState) : PipelineState :=
  InsertStagePrequisites now { s with id := newId, enabled := true }
    { st with stages := st.stages ++ [⟨newId, s.name, s.buildOrder, true⟩] }

/-- The UpdateStage function: UPDATE pipeline_stage SET name, build_order,
enabled WHERE id = s.id, then delete all prerequisite rows of the stage and
re-insert them from the stage value. -/
def UpdateStage (now : Nat) (s : Stage) (st : PipelineState) : PipelineState :=
  let st1 := { st with stages := st.stages.map (fun r =>
      if r.id = s.id then
        { r with name := s.name, buildOrder := s.buildOrder, enabled := s.enabled }
      else r) }
  InsertStagePrequisites now s (deleteStagePrerequisites s.id st1)

/-- The lower-case deleteStageByID helper: delete the stage prerequisites,
then DELETE FROM pipeline_stage WHERE id = s.id. -/
def deleteStageByIDRow (s : Stage) (st : PipelineState) : PipelineState :=
  let st1 := deleteStagePrerequisites s.id st
  { st1 with stages := st1.stages.filter (fun r => r.id ≠ s.id) }

/-- The CountStageByPipelineID function: SELECT count(id) FROM pipeline_stage
WHERE pipeline_id = the pipeline. -/
def CountStageByPipelineID (st : PipelineState) : Nat :=
  st.stages.length

/-- The DeleteStageByID function: count the stages, delete the action
placements of the stage through the external DeletePipelineActionByStage
collaborator (passed in as cleanup, which may fail), delete the
prerequisites and the stage row, then shift every stage with a greater
build order down by one. Any error is returned to the caller at once. -/
def DeleteStageByID (cleanup : Nat → PipelineState → Except String PipelineState)
    (s : Stage) (st : PipelineState) : Except String PipelineState := do
  let nbOfStages : Int := (CountStageByPipelineID st : Int)
  let st1 ← cleanup s.id st
  let st2 := deleteStageByIDRow s st1
  pure (moveDownStages s.buildOrder nbOfStages st2)

/-- Modelled from the spec: the persistence port groups a sequence of
statements into one atomic transaction; if the body returns an error the
transaction rolls back and the stored state is unchanged. The second
component of the result is the state that remains visible afterwards. -/
def runInTransaction (f : PipelineState → Except String PipelineState)
    (st : PipelineState) : Except String PipelineState × PipelineState :=
  match f st with
  | .ok st1 => (.ok st1, st1)
  | .error e => (.error e, st)

/-- The MoveStage function: inside one transaction, shift the range between
the old and the new position with moveUpStages or moveDownStages, assign the
new build order to the stage value, and write it back with UpdateStage.
UpdateStage is called even when the new order equals the old one. -/
def MoveStage (now : Nat) (stageToMove : Stage) (newBuildOrder : Int)
    (st : PipelineState) : PipelineState :=
  let st1 :=
    if newBuildOrder < stageToMove.buildOrder then
      moveUpStages stageToMove.buildOrder newBuildOrder st
    else if stageToMove.buildOrder < newBuildOrder then
      moveDownStages stageToMove.buildOrder newBuildOrder st
    else st
  UpdateStage now { stageToMove with buildOrder := newBuildOrder } st1

/-- Decidable equality for Except values, used to evaluate the models on
concrete inputs. -/
instance exceptDecEq {ε α : Type} [DecidableEq ε] [DecidableEq α] :
    DecidableEq (Except ε α) := fun x y =>
  match x, y with
  | .ok a, .ok b =>
      if h : a = b then isTrue (by rw [h]) else
        isFalse (fun hc => h (Except.ok.inj hc))
  | .error a, .error b =>
      if h : a = b then isTrue (by rw [h]) else
        isFalse (fun hc => h (Except.error.inj hc))
  | .ok _, .error _ => isFalse (fun hc => Except.noConfusion hc)
  | .error _, .ok _ => isFalse (fun hc => Except.noConfusion hc)

/-- An error from the database transport layer, as seen through the
database/sql package: noRows stands for sql.ErrNoRows. -/
inductive SqlError where
  | noRows : SqlError
  | other : String → SqlError
deriving DecidableEq, Repr

/-- One row of the LoadStage join query: stage columns plus the two nullable
prerequisite columns of the left outer join. -/
structure JoinRow where
  id : Nat
  pipelineId : Nat
  name : String
  buildOrder : Int
  enabled : Bool
  parameter : Option String
  expectedValue : Option String
deriving DecidableEq, Repr

/-- The Go zero value of sdk.Stage, with the prerequisite list initialised to
the empty slice as LoadStage does before scanning. -/
def zeroStage : Stage :=
  ⟨0, 0, "", 0, false, []⟩

/-- The LoadStage function, applied to the outcome of the join query: the
branch comparing the query error against sql.ErrNoRows, the branch returning
any other error, and the row loop that scans every row into one stage value
and appends each non-null prerequisite pair. -/
def LoadStage (res : Except SqlError (List JoinRow)) : Except String Stage :=
  match res with
  | .error .noRows => .error "cds: stage does not exist"
  | .error (.other e) => .error e
  | .ok rows =>
      .ok (rows.foldl (fun stage row =>
        let stage : Stage :=
          ⟨row.id, row.pipelineId, row.name, row.buildOrder, row.enabled, stage.prerequisites⟩
        match row.parameter, row.expectedValue with
        | some p, some v => { stage with prerequisites := stage.prerequisites ++ [⟨p, v⟩] }
        | _, _ => stage) zeroStage)

/-- The semantics of db.Query in the database/sql package for the LoadStage
join: a SELECT that matches no row yields an empty row set and a nil error;
sql.ErrNoRows is never produced by Query (only QueryRow.Scan produces it).
The rows are the stage rows with the given id joined with their
prerequisite rows, one row per prerequisite, or a single row with null
prerequisite columns when the stage has none. -/
def queryStageJoin (pipelineId : Nat) (stageId : Nat) (st : PipelineState) :
    Except SqlError (List JoinRow) :=
  .ok ((st.stages.filter (fun r => r.id = stageId)).flatMap (fun r =>
    let ps := st.prereqs.filter (fun p => p.stageId = r.id)
    if ps.isEmpty then
      [⟨r.id, pipelineId, r.name, r.buildOrder, r.enabled, none, none⟩]
    else
      ps.map (fun p =>
        ⟨r.id, pipelineId, r.name, r.buildOrder, r.enabled, some p.parameter,
          some p.expectedValue⟩)))

/-- One row of the LoadStages join query: only id, name, enabled and the two
nullable prerequisite columns are selected (build_order is used for ordering
but not scanned). The rows arrive ordered by build_order ascending. -/
structure StagesJoinRow where
  id : Nat
  name : Option String
  enabled : Bool
  parameter : Option String
  expectedValue : Option String
deriving DecidableEq, Repr

/-- Writes the stage object for a key back into the map, or inserts it if
the key is new; models assignment into the Go map mapStages, where every
entry is a pointer to a single shared object. -/
def updateAssoc (m : List (Nat × Stage)) (k : Nat) (v : Stage) : List (Nat × Stage) :=
  if (m.lookup k).isSome then
    m.map (fun kv => if kv.1 = k then (k, v) else kv)
  else
    m ++ [(k, v)]

/-- One iteration of the LoadStages row loop: look the stage up in mapStages
or create it (build order is never scanned and stays zero), append the
prerequisite pair when both columns are non-null with no deduplication, and
append the stage pointer to stagesPtr on every row. -/
def loadStagesStep (acc : List (Nat × Stage) × List Nat) (row : StagesJoinRow) :
    List (Nat × Stage) × List Nat :=
  let m := acc.1
  let ptrs := acc.2
  let stageData : Stage :=
    match m.lookup row.id with
    | none => ⟨row.id, 0, row.name.getD "", 0, row.enabled, []⟩
    | some s => s
  let stageData :=
    match row.parameter, row.expectedValue with
    | some p, some v =>
        { stageData with prerequisites := stageData.prerequisites ++ [⟨p, v⟩] }
    | _, _ => stageData
  (updateAssoc m row.id stageData, ptrs ++ [row.id])

/-- The LoadStages function, applied to the ordered rows of its join query:
folds the row loop over the rows, then dereferences every pointer collected
in stagesPtr into the result slice. -/
def LoadStages (rows : List StagesJoinRow) : List Stage :=
  let acc := rows.foldl loadStagesStep ([], [])
  acc.2.filterMap (fun id => acc.1.lookup id)

/-- The sdk.Parameter structure: a name and a value. It serves both as a
runtime build parameter and as an action parameter. -/
structure Parameter where
  name : String
  value : String
deriving DecidableEq, Repr

/-- Fuel-indexed worker for replaceAll; the fuel is the length of the input,
which bounds the recursion because a non-empty matched pattern consumes at
least one character. Structural recursion on the fuel keeps the function
reducible by the kernel. -/
def replaceAllAux : Nat → List Char → List Char → List Char → List Char
  | 0, s, _, _ => s
  | fuel + 1, s, pat, new =>
    match s with
    | [] => []
    | c :: rest =>
      if pat ≠ [] ∧ (c :: rest).take pat.length = pat then
        new ++ replaceAllAux fuel ((c :: rest).drop pat.length) pat new
      else
        c :: replaceAllAux fuel rest pat new

/-- Replaces every non-overlapping occurrence of pat by new in s, scanning
left to right; the model of strings.Replace with count -1. When pat is empty
the input is returned unchanged (the Go corner case of an empty pattern
never arises here because the pattern always contains the braces). -/
def replaceAll (s pat new : List Char) : List Char :=
  replaceAllAux s.length s pat new

/-- String form of replaceAll. -/
def goReplace (s pat new : String) : String :=
  ⟨replaceAll s.data pat.data new.data⟩

/-- The placeholder string built by CheckPrerequisites for a build parameter
name: two opening braces, a dot, the name, two closing braces. -/
def placeholderOf (name : String) : String :=
  "\x7b\x7b." ++ name ++ "\x7d\x7d"

/-- The inner body of one pass of the substitution loop, iterating the outer
range over the parameter indices: at index j the current parameter is read
(the values already rewritten by earlier indices of the same pass), and
every parameter value has the placeholder of that parameter replaced by its
value. The boolean accumulates whether any replacement changed a value. -/
def substPassAux : List Nat → List Parameter → Bool → List Parameter × Bool
  | [], ps, rep => (ps, rep)
  | j :: rest, ps, rep =>
    match ps.get? j with
    | none => substPassAux rest ps rep
    | some pbp =>
      let ps2 := ps.map (fun q => ⟨q.name, goReplace q.value (placeholderOf pbp.name) pbp.value⟩)
      substPassAux rest ps2 (rep || decide (¬ ps2 = ps))

/-- One full pass of the placeholder substitution loop of CheckPrerequisites
over all build parameters, returning the rewritten parameters and whether
any value changed. -/
def substPass (ps : List Parameter) : List Parameter × Bool :=
  substPassAux (List.range ps.length) ps false

/-- The outer substitution loop: repeat full passes until a pass produces no
replacement. The Go loop has no iteration cap; the fuel argument bounds the
model, and none is returned when the loop has not converged within the
fuel, which models divergence. -/
def substFix : Nat → List Parameter → Option (List Parameter)
  | 0, _ => none
  | fuel + 1, ps =>
    let r := substPass ps
    if r.2 then substFix fuel r.1 else some r.1

/-- Model of strings.HasPrefix. -/
def strStarts (s c : String) : Bool :=
  decide (s.data.take c.data.length = c.data)

/-- Model of strings.HasSuffix. -/
def strEnds (s c : String) : Bool :=
  decide (s.data.drop (s.data.length - c.data.length) = c.data ∧ c.data.length ≤ s.data.length)

/-- The anchoring step of CheckPrerequisites: prepend a caret unless the
expanded pattern already starts with one, append a dollar unless it already
ends with one. -/
def anchorPattern (expectedValue : String) : String :=
  let ev := if ¬ strStarts expectedValue "^" then "^" ++ expectedValue else expectedValue
  if ¬ strEnds ev "$" then ev ++ "$" else ev

/-- The inner loop of the condition check of CheckPrerequisites for one
prerequisite: scan every build parameter; on a name match, expand the
expected value through the external trigger collaborator, anchor it, and
match it against the parameter value with the external regexp engine. A
regexp error aborts with an error, a failed match returns false at once,
and the scan of the remaining parameters continues otherwise. -/
def checkOnePrereq (expand : String → String)
    (rmatch : String → String → Except String Bool) (p : Prerequisite) :
    List Parameter → Except String Bool
  | [] => .ok true
  | pbp :: rest =>
    if p.parameter = pbp.name then
      match rmatch (anchorPattern (expand p.expectedValue)) pbp.value with
      | .error e => .error ("CheckPrerequisites> " ++ e)
      | .ok false => .ok false
      | .ok true => checkOnePrereq expand rmatch p rest
    else
      checkOnePrereq expand rmatch p rest

/-- The outer loop of the condition check of CheckPrerequisites over all
prerequisites of the stage: any error or failed match is returned at once,
and a stage whose prerequisites all match is eligible. -/
def checkAllPrereqs (expand : String → String)
    (rmatch : String → String → Except String Bool) (params : List Parameter) :
    List Prerequisite → Except String Bool
  | [] => .ok true
  | p :: rest =>
    match checkOnePrereq expand rmatch p params with
    | .error e => .error e
    | .ok false => .ok false
    | .ok true => checkAllPrereqs expand rmatch params rest

/-- The CheckPrerequisites function. The external collaborators are passed
in: expand models trigger.ProcessTriggerExpectedValue applied with the
build, and rmatch models regexp.Match. The build parameter slice is passed
by a Go slice header, so the placeholder substitution writes through to the
caller; the model therefore returns the post-call parameter array next to
the result. none models divergence of the uncapped substitution loop. -/
def CheckPrerequisites (fuel : Nat) (expand : String → String)
    (rmatch : String → String → Except String Bool) (s : Stage)
    (params : List Parameter) : Option (Except String Bool × List Parameter) :=
  match substFix fuel params with
  | none => none
  | some params2 => some (checkAllPrereqs expand rmatch params2 s.prerequisites, params2)

/-- Modelled from the spec: updateParamInList is defined outside the source
under study; per the spec, when the override list already carries a
parameter with the name of the definition default, the override value wins
and the default is marked consumed, and otherwise the list is returned
unchanged with the flag false. -/
def updateParamInList (params : List Parameter) (p : Parameter) : Bool × List Parameter :=
  if params.any (fun q => q.name == p.name) then (true, params) else (false, params)

/-- The parameter merge loop of loadPipelineStage: starting from the decoded
override list of the placement, walk the definition defaults in order; a
default whose name is already present is consumed, any other default is
appended to the list. -/
def mergeActionParameters (overrides defaults : List Parameter) : List Parameter :=
  defaults.foldl (fun acc d =>
    let r := updateParamInList acc d
    if r.1 then r.2 else r.2 ++ [d]) overrides

/-- The dense order list 1..n. -/
def denseOrders (n : Nat) : List Int :=
  (List.range n).map (fun (i : Nat) => (i : Int) + 1)

/-- The build order column of the stage rows. -/
def ordersOf (st : PipelineState) : List Int :=
  st.stages.map (fun r => r.buildOrder)

/-- The build-order invariant of the spec: the build order values of a
pipeline with n stages are exactly 1..n, with no gaps and no duplicates. -/
def buildOrderInvariant (st : PipelineState) : Prop :=
  List.Perm (ordersOf st) (denseOrders st.stages.length)

instance (st : PipelineState) : Decidable (buildOrderInvariant st) :=
  List.decidablePerm _ _

/-- A fresh stage identity, one greater than every existing id; the model of
the identity generated by the RETURNING id clause of the insert. -/
def freshId (st : PipelineState) : Nat :=
  (st.stages.map (fun r => r.id)).foldl max 0 + 1

/-- Looks a stage row up by id, as the callers of the store do before
updating, deleting or moving a stage. -/
def findStage (st : PipelineState) (stageId : Nat) : Option StageRow :=
  st.stages.find? (fun r => r.id = stageId)

/-- Rebuilds the sdk.Stage value a caller would pass to the store for a
stored row: the row fields together with the prerequisite rows of the
stage. -/
def stageOf (st : PipelineState) (r : StageRow) : Stage :=
  ⟨r.id, 0, r.name, r.buildOrder, r.enabled,
    (st.prereqs.filter (fun p => p.stageId = r.id)).map (fun p => ⟨p.parameter, p.expectedValue⟩)⟩

/-- Modelled from the spec: the success path of the external
DeletePipelineActionByStage collaborator removes the action placement rows
of the stage. -/
def cleanupPlacements (stageId : Nat) (st : PipelineState) : Except String PipelineState :=
  .ok { st with placements := st.placements.filter (fun p => p.stageId ≠ stageId) }

/-- One public stage lifecycle operation on a pipeline. -/
inductive StageOp where
  | insert (name : String) (prereqs : List Prerequisite) (now : Nat) : StageOp
  | delete (stageId : Nat) : StageOp
  | move (stageId : Nat) (newOrder : Int) (now : Nat) : StageOp
deriving DecidableEq, Repr

/-- Applies one operation, returning none when the operation fails (a stage
that does not exist). Insert is modelled from the spec lifecycle: a stage
is created with buildOrder equal to count plus one, and receives a fresh
generated identity. Delete and move resolve the stage row first, as their
callers do, then run the store functions of the source. -/
def applyOp (st : PipelineState) : StageOp → Option PipelineState
  | .insert name prereqs now =>
      some (InsertStage now (freshId st)
        ⟨0, 0, name, (st.stages.length : Int) + 1, false, prereqs⟩ st)
  | .delete stageId =>
      match findStage st stageId with
      | none => none
      | some r =>
        match DeleteStageByID cleanupPlacements (stageOf st r) st with
        | .ok st1 => some st1
        | .error _ => none
  | .move stageId newOrder now =>
      match findStage st stageId with
      | none => none
      | some r => some (MoveStage now (stageOf st r) newOrder st)

/-- Runs a sequence of operations; a failed operation rolls back and leaves
the state unchanged, and the following operations still run. -/
def runOps : PipelineState → List StageOp → PipelineState
  | st, [] => st
  | st, op :: rest => runOps ((applyOp st op).getD st) rest

/-- The validity condition of the amended invariant claim: a move must
target a build order inside the current range 1..count. -/
def opValid (st : PipelineState) : StageOp → Prop
  | .move _ newOrder _ => 1 ≤ newOrder ∧ newOrder ≤ (st.stages.length : Int)
  | _ => True

/-- Every operation of the sequence is valid in the state it runs in. -/
def validTrajectory : PipelineState → List StageOp → Prop
  | _, [] => True
  | st, op :: rest => opValid st op ∧ validTrajectory ((applyOp st op).getD st) rest

/-- The empty pipeline. -/
def emptyPipeline : PipelineState :=
  ⟨[], [], [], 0⟩

/-- A pipeline with a single stage of id 1 at build order 1, used as a
concrete evaluation state. -/
def onePipeline : PipelineState :=
  ⟨[⟨1, "a", 1, true⟩], [], [], 0⟩

/-- A cleanup collaborator that always fails, standing for a failing
DeletePipelineActionByStage call. -/
def failingCleanup : Nat → PipelineState → Except String PipelineState :=
  fun _ _ => .error "placement failure"

/-- C10: every UpdateStage call ends in InsertStagePrequisites, which calls
UpdatePipelineLastModified unconditionally, even when the prerequisite list
is empty; and MoveStage calls UpdateStage on every path, including the
trivial move. So both operations always stamp the pipeline last_modified
with the current time. -/
theorem updateStage_bumps_pipeline_lastModified (now : Nat) (s : Stage)
    (newOrder : Int) (st : PipelineState) :
    (UpdateStage now s st).lastModified = now ∧
    (MoveStage now s newOrder st).lastModified = now :=
  ⟨rfl, rfl⟩

/-- C10 witness: the stamp update observed on a concrete stage with an empty
prerequisite list, through both UpdateStage and a trivial MoveStage. -/
theorem updateStage_bumps_lastModified_witness :
    (UpdateStage 5 ⟨1, 0, "a", 1, true, []⟩ onePipeline).lastModified = 5 ∧
    (MoveStage 5 ⟨1, 0, "a", 1, true, []⟩ 1 onePipeline).lastModified = 5 :=
  updateStage_bumps_pipeline_lastModified 5 ⟨1, 0, "a", 1, true, []⟩ 1 onePipeline

/-- C4: when the action-placement cleanup step of DeleteStageByID fails, the
error is propagated immediately, no later step of the delete runs, and the
surrounding transaction rolls back, so the visible state afterwards is
exactly the original one: no stage row, prerequisite row or build-order
shift is persisted. -/
theorem deleteStage_cleanup_failure_rolls_back
    (cleanup : Nat → PipelineState → Except String PipelineState)
    (s : Stage) (st : PipelineState) (e : String)
    (h : cleanup s.id st = .error e) :
    runInTransaction (DeleteStageByID cleanup s) st = (.error e, st) := by
  simp only [runInTransaction, DeleteStageByID, CountStageByPipelineID, bind, Except.bind, h]

/-- C4 witness: a concrete failing cleanup observed on the one-stage
pipeline. -/
theorem deleteStage_cleanup_failure_witness :
    runInTransaction (DeleteStageByID failingCleanup (stageOf onePipeline ⟨1, "a", 1, true⟩))
        onePipeline
      = (.error "placement failure", onePipeline) :=
  deleteStage_cleanup_failure_rolls_back failingCleanup
    (stageOf onePipeline ⟨1, "a", 1, true⟩) onePipeline "placement failure" rfl

/-- C5: LoadStage compares the error of db.Query against sql.ErrNoRows, but
Query reports an empty match as an empty row set with a nil error and never
returns sql.ErrNoRows; so for a stage id with no matching row LoadStage
returns the zero-valued stage with a nil error instead of failing with the
not-found error. -/
theorem loadStage_no_row_returns_zero_stage :
    queryStageJoin 1 42 onePipeline = .ok [] ∧
    LoadStage (queryStageJoin 1 42 onePipeline) = .ok zeroStage ∧
    LoadStage (queryStageJoin 1 42 onePipeline) ≠ .error "cds: stage does not exist" := by
  decide

/-- C6: the row loop of LoadStages appends the shared stage object to the
result list once per joined row instead of once per stage, and does not
deduplicate prerequisite pairs. A stage with two prerequisite rows is
returned twice (first conjunct), and a duplicated (parameter, expectedValue)
row is kept twice in the prerequisite list (second conjunct). -/
theorem loadStages_duplicates_stage_rows :
    LoadStages [⟨7, some "s", true, some "p", some "v"⟩, ⟨7, some "s", true, some "q", some "w"⟩]
      = [⟨7, 0, "s", 0, true, [⟨"p", "v"⟩, ⟨"q", "w"⟩]⟩,
         ⟨7, 0, "s", 0, true, [⟨"p", "v"⟩, ⟨"q", "w"⟩]⟩] ∧
    LoadStages [⟨7, some "s", true, some "p", some "v"⟩, ⟨7, some "s", true, some "p", some "v"⟩]
      = [⟨7, 0, "s", 0, true, [⟨"p", "v"⟩, ⟨"p", "v"⟩]⟩,
         ⟨7, 0, "s", 0, true, [⟨"p", "v"⟩, ⟨"p", "v"⟩]⟩] := by
  decide

/-- C8: placeholder substitution converges on transitive references and on
the direct self-reference. The transitive example resolves in one effective
pass; the self-referential cycle replaces the placeholder by itself, so the
very first pass reports no change and the loop terminates with the
parameters unchanged for every fuel bound; and CheckPrerequisites performs
the resolution before the matching step, as the resolved array returned
next to the result shows. -/
theorem checkPrerequisites_substitution_convergence :
    substFix 2 [⟨"a", "\x7b\x7b.b\x7d\x7d"⟩, ⟨"b", "x"⟩] = some [⟨"a", "x"⟩, ⟨"b", "x"⟩] ∧
    (∀ fuel : Nat,
      substFix (fuel + 1) [⟨"a", "\x7b\x7b.a\x7d\x7d"⟩] = some [⟨"a", "\x7b\x7b.a\x7d\x7d"⟩]) ∧
    CheckPrerequisites 2 (fun ev => ev) (fun _ _ => .ok true) zeroStage
        [⟨"a", "\x7b\x7b.b\x7d\x7d"⟩, ⟨"b", "x"⟩]
      = some (.ok true, [⟨"a", "x"⟩, ⟨"b", "x"⟩]) := by
  refine ⟨by decide, ?_, by decide⟩
  intro fuel
  have h : substPass [⟨"a", "\x7b\x7b.a\x7d\x7d"⟩] = ([⟨"a", "\x7b\x7b.a\x7d\x7d"⟩], false) := by
    decide
  simp [substFix, h]

/-- C8 witness: the cycle instance at the smallest fuel. -/
theorem substitution_cycle_witness :
    substFix 1 [⟨"a", "\x7b\x7b.a\x7d\x7d"⟩] = some [⟨"a", "\x7b\x7b.a\x7d\x7d"⟩] :=
  checkPrerequisites_substitution_convergence.2.1 0

/-- C9 counterexample: the merge starts from the decoded override list and
appends unmatched definition defaults at the end, so with defaults timeout
then retries and an override for retries only, the code produces the
override first and the non-overridden default after it, not the claimed
definition order. -/
theorem merge_order_counterexample :
    mergeActionParameters [⟨"retries", "5"⟩] [⟨"timeout", "30"⟩, ⟨"retries", "1"⟩]
      = [⟨"retries", "5"⟩, ⟨"timeout", "30"⟩] ∧
    mergeActionParameters [⟨"retries", "5"⟩] [⟨"timeout", "30"⟩, ⟨"retries", "1"⟩]
      ≠ [⟨"timeout", "30"⟩, ⟨"retries", "5"⟩] := by
  decide

/-- One step of the merge fold: a default whose name is already in the list
leaves it unchanged, any other default is appended. -/
theorem mergeActionParameters_cons (ov : List Parameter) (d : Parameter)
    (ds : List Parameter) :
    mergeActionParameters ov (d :: ds)
      = mergeActionParameters
          (if ov.any (fun q => q.name == d.name) then ov else ov ++ [d]) ds := by
  simp only [mergeActionParameters, List.foldl_cons, updateParamInList]
  by_cases hd : ov.any (fun q => q.name == d.name) <;> simp [hd]

/-- C9 amended: an override replaces the default parameter of the same name
(the override value wins), non-overridden defaults pass through, and an
override with no matching default is kept; the final list is the override
list in its original order followed by the non-overridden defaults in
definition order. -/
theorem mergeActionParameters_override_merge (overrides defaults : List Parameter)
    (h : (defaults.map (fun p => p.name)).Nodup) :
    mergeActionParameters overrides defaults
      = overrides ++ defaults.filter (fun d => !(overrides.any (fun q => q.name == d.name))) := by
  induction defaults generalizing overrides with
  | nil => simp [mergeActionParameters]
  | cons d ds ih =>
    simp only [List.map_cons, List.nodup_cons] at h
    rw [mergeActionParameters_cons]
    by_cases hd : overrides.any (fun q => q.name == d.name)
    · rw [if_pos hd, ih overrides h.2, List.filter_cons]
      simp [hd]
    · rw [if_neg hd, ih (overrides ++ [d]) h.2, List.filter_cons]
      have h2 : ds.filter (fun x => !((overrides ++ [d]).any (fun q => q.name == x.name)))
          = ds.filter (fun x => !(overrides.any (fun q => q.name == x.name))) := by
        apply List.filter_congr
        intro x hx
        have hne : ¬ d.name = x.name := by
          intro heq
          exact h.1 (heq ▸ List.mem_map_of_mem (fun p => p.name) hx)
        simp [List.any_append, hne]
      rw [h2]
      simp [hd, List.append_assoc]

/-- C9 witness: the example of the claim, defaults timeout 30 and retries 1
with the stage placement overriding timeout to 60, merges to timeout 60 then
retries 1. -/
theorem merge_example_witness :
    mergeActionParameters [⟨"timeout", "60"⟩] [⟨"timeout", "30"⟩, ⟨"retries", "1"⟩]
      = [⟨"timeout", "60"⟩] ++
        ([⟨"timeout", "30"⟩, ⟨"retries", "1"⟩] : List Parameter).filter
          (fun d => !(([⟨"timeout", "60"⟩] : List Parameter).any (fun q => q.name == d.name))) ∧
    mergeActionParameters [⟨"timeout", "60"⟩] [⟨"timeout", "30"⟩, ⟨"retries", "1"⟩]
      = [⟨"timeout", "60"⟩, ⟨"retries", "1"⟩] :=
  ⟨mergeActionParameters_override_merge [⟨"timeout", "60"⟩]
      [⟨"timeout", "30"⟩, ⟨"retries", "1"⟩] (by decide), by decide⟩

/-- Names of a parameter list. -/
def paramNames (ps : List Parameter) : List String :=
  ps.map (fun p => p.name)

/-- The substitution pass renames nothing: it only rewrites values. -/
theorem substPassAux_names (js : List Nat) (ps : List Parameter) (b : Bool) :
    paramNames (substPassAux js ps b).1 = paramNames ps := by
  induction js generalizing ps b with
  | nil => rfl
  | cons j rest ih =>
    simp only [substPassAux]
    cases hj : ps.get? j with
    | none => exact ih ps b
    | some pbp =>
      rw [ih]
      simp [paramNames, List.map_map, Function.comp]

/-- The full substitution loop renames nothing. -/
theorem substFix_names (fuel : Nat) (ps ps2 : List Parameter)
    (h : substFix fuel ps = some ps2) : paramNames ps2 = paramNames ps := by
  induction fuel generalizing ps with
  | zero => cases h
  | succ n ih =>
    simp only [substFix] at h
    by_cases hr : (substPass ps).2
    · rw [if_pos hr] at h
      rw [ih (substPass ps).1 h]
      exact substPassAux_names _ _ _
    · rw [if_neg hr] at h
      cases h
      exact substPassAux_names _ _ _

/-- When the first pass reports no replacement, the loop returns at once. -/
theorem substFix_of_fixed (n : Nat) (ps : List Parameter)
    (h : substPass ps = (ps, false)) : substFix (n + 1) ps = some ps := by
  simp [substFix, h]

/-- C7 counterexample: the build parameter slice is passed through a Go
slice header, so the placeholder writes land in the backing array shared
with the caller; on a build whose parameter a references parameter b, the
post-call array differs from the input array even though the stage has no
prerequisite at all. The build is not a read-only input. -/
theorem checkPrerequisites_mutates_build_params :
    CheckPrerequisites 2 (fun ev => ev) (fun _ _ => .ok true) zeroStage
        [⟨"a", "\x7b\x7b.b\x7d\x7d"⟩, ⟨"b", "x"⟩]
      = some (.ok true, [⟨"a", "x"⟩, ⟨"b", "x"⟩]) ∧
    ([⟨"a", "x"⟩, ⟨"b", "x"⟩] : List Parameter)
      ≠ [⟨"a", "\x7b\x7b.b\x7d\x7d"⟩, ⟨"b", "x"⟩] := by
  decide

/-- C7 amended: CheckPrerequisites is a function of its inputs, but the
build parameters are not left unchanged in general: the caller-visible
array after the call carries the substituted values. What is preserved is
the list of parameter names, and the array is unchanged exactly when a full
substitution pass replaces nothing. -/
theorem checkPrerequisites_frame (fuel : Nat) (expand : String → String)
    (rmatch : String → String → Except String Bool) (s : Stage)
    (params : List Parameter) (res : Except String Bool) (ps2 : List Parameter)
    (h : CheckPrerequisites fuel expand rmatch s params = some (res, ps2)) :
    paramNames ps2 = paramNames params ∧
    (substPass params = (params, false) → ps2 = params) := by
  unfold CheckPrerequisites at h
  cases hf : substFix fuel params with
  | none => rw [hf] at h; cases h
  | some q =>
    rw [hf] at h
    have hq : q = ps2 := congrArg Prod.snd (Option.some.inj h)
    refine ⟨hq ▸ substFix_names fuel params q hf, ?_⟩
    intro hfix
    cases fuel with
    | zero => cases hf
    | succ n =>
      have h2 := substFix_of_fixed n params hfix
      rw [h2] at hf
      exact hq ▸ (Option.some.inj hf).symm

/-- C7 witness: the frame theorem applied to a one-parameter build with no
placeholder, where the array is unchanged. -/
theorem checkPrerequisites_frame_witness :
    paramNames [⟨"b", "x"⟩] = paramNames [⟨"b", "x"⟩] ∧
    (substPass [⟨"b", "x"⟩] = ([⟨"b", "x"⟩], false) →
      ([⟨"b", "x"⟩] : List Parameter) = [⟨"b", "x"⟩]) :=
  checkPrerequisites_frame 1 (fun ev => ev) (fun _ _ => .ok true) zeroStage
    [⟨"b", "x"⟩] (.ok true) [⟨"b", "x"⟩] (by decide)

/-- The net build-order change MoveStage applies to a stage row that is not
the moved one, as a function of the old order o, the new order o2 and the
current row order x: the range from o2 up to but excluding o shifts up by
one when moving earlier, the range above o up to and including o2 shifts
down by one when moving later, and nothing else changes. -/
def moveShift (o o2 x : Int) : Int :=
  if o2 < o then (if x < o ∧ o2 ≤ x then x + 1 else x)
  else if o < o2 then (if x ≤ o2 ∧ o < x then x - 1 else x)
  else x

/-- A move to the same position shifts nothing. -/
theorem moveShift_self (o x : Int) : moveShift o o x = x := by
  simp [moveShift]

/-- The row transformation of a whole MoveStage call: the moved stage row is
rewritten with the stage name, enabled flag and the new build order, and
every other row has its build order passed through moveShift. -/
def moveRowF (s : Stage) (o2 : Int) (r : StageRow) : StageRow :=
  if r.id = s.id then { r with name := s.name, buildOrder := o2, enabled := s.enabled }
  else { r with buildOrder := moveShift s.buildOrder o2 r.buildOrder }

/-- The stage rows after MoveStage are exactly the rows before, each mapped
through moveRowF. -/
theorem moveStage_stages_eq (now : Nat) (s : Stage) (o2 : Int) (st : PipelineState) :
    (MoveStage now s o2 st).stages = st.stages.map (moveRowF s o2) := by
  rcases lt_trichotomy o2 s.buildOrder with hc | hc | hc
  · have hc2 : ¬ s.buildOrder < o2 := by omega
    simp only [MoveStage, if_pos hc, UpdateStage, InsertStagePrequisites,
      UpdatePipelineLastModified, deleteStagePrerequisites, moveUpStages]
    rw [List.map_map]
    apply List.map_congr_left
    intro r _
    simp only [Function.comp, moveRowF, moveShift, if_pos hc]
    by_cases hcond : r.buildOrder < s.buildOrder ∧ o2 ≤ r.buildOrder
    · by_cases hid : r.id = s.id <;> simp [hcond, hid]
    · by_cases hid : r.id = s.id <;> simp [hcond, hid]
  · subst hc
    have hc2 : ¬ s.buildOrder < s.buildOrder := by omega
    simp only [MoveStage, if_neg hc2, UpdateStage, InsertStagePrequisites,
      UpdatePipelineLastModified, deleteStagePrerequisites]
    apply List.map_congr_left
    intro r _
    simp only [moveRowF, moveShift, if_neg hc2]
  · have hc2 : ¬ o2 < s.buildOrder := by omega
    simp only [MoveStage, if_neg hc2, if_pos hc, UpdateStage, InsertStagePrequisites,
      UpdatePipelineLastModified, deleteStagePrerequisites, moveDownStages]
    rw [List.map_map]
    apply List.map_congr_left
    intro r _
    have hc3 : ¬ o2 < s.buildOrder := by omega
    simp only [Function.comp, moveRowF, moveShift, if_neg hc3, if_pos hc]
    by_cases hcond : r.buildOrder ≤ o2 ∧ s.buildOrder < r.buildOrder
    · by_cases hid : r.id = s.id <;> simp [hcond, hid]
    · by_cases hid : r.id = s.id <;> simp [hcond, hid]

/-- The prerequisite rows after MoveStage: the rows of the moved stage are
deleted and the prerequisite list of the passed stage value is appended. -/
theorem moveStage_prereqs_eq (now : Nat) (s : Stage) (o2 : Int) (st : PipelineState) :
    (MoveStage now s o2 st).prereqs
      = st.prereqs.filter (fun p => p.stageId ≠ s.id)
        ++ s.prerequisites.map (fun p => ⟨s.id, p.parameter, p.expectedValue⟩) := by
  simp only [MoveStage]
  split_ifs <;> rfl

/-- The pipeline stamp after MoveStage is the current time. -/
theorem moveStage_lastModified_eq (now : Nat) (s : Stage) (o2 : Int) (st : PipelineState) :
    (MoveStage now s o2 st).lastModified = now :=
  rfl

/-- C2: MoveStage rewrites the stage rows exactly as the claim describes.
The first conjunct gives the whole table as a pointwise map; the second
says the moved row (matched by id) is written with buildOrder equal to the
new order; the third says a row that is not the moved one is incremented
exactly when moving earlier with its order in the half-open range from the
new order up to the old one, decremented exactly when moving later with its
order in the half-open range above the old order up to the new one, and
untouched otherwise; the fourth says the shift preserves the relative order
of any two orders other than the moved one. -/
theorem moveStage_shift_correct (now : Nat) (s : Stage) (o2 : Int) (st : PipelineState) :
    (MoveStage now s o2 st).stages = st.stages.map (moveRowF s o2) ∧
    (∀ r : StageRow, r.id = s.id →
      moveRowF s o2 r = { r with name := s.name, buildOrder := o2, enabled := s.enabled }) ∧
    (∀ r : StageRow, ¬ r.id = s.id →
      (moveRowF s o2 r).buildOrder
        = (if o2 < s.buildOrder ∧ o2 ≤ r.buildOrder ∧ r.buildOrder < s.buildOrder then
            r.buildOrder + 1
          else if s.buildOrder < o2 ∧ s.buildOrder < r.buildOrder ∧ r.buildOrder ≤ o2 then
            r.buildOrder - 1
          else r.buildOrder)) ∧
    (∀ x y : Int, ¬ x = s.buildOrder → ¬ y = s.buildOrder →
      (x < y ↔ moveShift s.buildOrder o2 x < moveShift s.buildOrder o2 y)) := by
  refine ⟨moveStage_stages_eq now s o2 st, ?_, ?_, ?_⟩
  · intro r hid
    simp [moveRowF, hid]
  · intro r hid
    simp only [moveRowF, if_neg hid]
    show moveShift s.buildOrder o2 r.buildOrder = _
    simp only [moveShift]
    split_ifs <;> omega
  · intro x y hx hy
    simp only [moveShift]
    split_ifs <;> omega

/-- C2 witness: a four-stage pipeline with stage 4 moved to position 1, and
the relative-order equivalence at the concrete orders 2 and 3. -/
theorem moveStage_shift_witness :
    (MoveStage 9 ⟨4, 0, "d", 4, true, []⟩ 1
        ⟨[⟨1, "a", 1, true⟩, ⟨2, "b", 2, true⟩, ⟨3, "c", 3, true⟩, ⟨4, "d", 4, true⟩],
          [], [], 0⟩).stages
      = ([⟨1, "a", 1, true⟩, ⟨2, "b", 2, true⟩, ⟨3, "c", 3, true⟩,
          ⟨4, "d", 4, true⟩] : List StageRow).map (moveRowF ⟨4, 0, "d", 4, true, []⟩ 1) ∧
    ((2 : Int) < 3 ↔ moveShift 4 1 2 < moveShift 4 1 3) :=
  ⟨(moveStage_shift_correct 9 ⟨4, 0, "d", 4, true, []⟩ 1
      ⟨[⟨1, "a", 1, true⟩, ⟨2, "b", 2, true⟩, ⟨3, "c", 3, true⟩, ⟨4, "d", 4, true⟩],
        [], [], 0⟩).1,
   (moveStage_shift_correct 9 ⟨4, 0, "d", 4, true, []⟩ 1
      ⟨[⟨1, "a", 1, true⟩, ⟨2, "b", 2, true⟩, ⟨3, "c", 3, true⟩, ⟨4, "d", 4, true⟩],
        [], [], 0⟩).2.2.2 2 3 (by decide) (by decide)⟩

/-- A two-stage pipeline whose prerequisite table interleaves the two
stages, used to observe the prerequisite rewrite of a trivial move. -/
def stC3 : PipelineState :=
  ⟨[⟨1, "a", 1, true⟩, ⟨2, "b", 2, true⟩], [⟨1, "p", "v"⟩, ⟨2, "q", "w"⟩], [], 0⟩

/-- The loaded stage value for stage 1 of stC3. -/
def sC3 : Stage :=
  stageOf stC3 ⟨1, "a", 1, true⟩

/-- C3 counterexample: moving stage 1 of stC3 to its current build order 1
is not a no-op: MoveStage still calls UpdateStage, which rewrites the stage
row, deletes and re-inserts the prerequisite rows (moving them to the end
of the table) and stamps the pipeline last_modified, so the stored state
after the call differs from the state before it. -/
theorem moveStage_same_order_not_noop :
    sC3.buildOrder = 1 ∧
    MoveStage 1 sC3 1 stC3 ≠ stC3 ∧
    (MoveStage 1 sC3 1 stC3).lastModified ≠ stC3.lastModified ∧
    (MoveStage 1 sC3 1 stC3).prereqs ≠ stC3.prereqs := by
  decide

/-- C3 amended: a move to the current build order performs no shift, leaves
the stage rows (and so the stored ordering) unchanged and keeps the same
multiset of prerequisite rows whenever the passed stage value agrees with
the stored rows; but it is not a no-op: UpdateStage still runs, the
prerequisite rows are rewritten, and the pipeline last_modified is set. -/
theorem moveStage_same_order_preserves_content (now : Nat) (s : Stage)
    (st : PipelineState)
    (hrow : ∀ r ∈ st.stages, r.id = s.id →
      r.name = s.name ∧ r.buildOrder = s.buildOrder ∧ r.enabled = s.enabled)
    (hpre : st.prereqs.filter (fun p => p.stageId = s.id)
      = s.prerequisites.map (fun p => ⟨s.id, p.parameter, p.expectedValue⟩)) :
    (MoveStage now s s.buildOrder st).stages = st.stages ∧
    List.Perm (MoveStage now s s.buildOrder st).prereqs st.prereqs ∧
    (MoveStage now s s.buildOrder st).lastModified = now := by
  refine ⟨?_, ?_, rfl⟩
  · rw [moveStage_stages_eq]
    conv_rhs => rw [← List.map_id st.stages]
    apply List.map_congr_left
    intro r hr
    by_cases hid : r.id = s.id
    · obtain ⟨h1, h2, h3⟩ := hrow r hr hid
      simp only [moveRowF, if_pos hid, ← h1, ← h2, ← h3]
      rfl
    · simp only [moveRowF, if_neg hid, moveShift_self]
      rfl
  · rw [moveStage_prereqs_eq, ← hpre]
    have hsplit := List.filter_append_perm
      (fun p : PrereqRow => !(decide (p.stageId = s.id))) st.prereqs
    refine List.Perm.trans (List.Perm.append ?_ ?_) hsplit
    · apply List.Perm.of_eq
      apply List.filter_congr
      intro p _
      simp [decide_not]
    · apply List.Perm.of_eq
      apply List.filter_congr
      intro p _
      simp

/-- The count form of the build-order invariant: every value between one
and the stage count occurs exactly once among the build orders, and no
other value occurs. -/
def countInv (st : PipelineState) : Prop :=
  ∀ v : Int, (ordersOf st).count v
    = if 1 ≤ v ∧ v ≤ (st.stages.length : Int) then 1 else 0

/-- Stage row ids of a pipeline are pairwise distinct; the identity column
of the table is a generated key. -/
def idsNodup (st : PipelineState) : Prop :=
  (st.stages.map (fun r => r.id)).Nodup

instance (st : PipelineState) : Decidable (idsNodup st) := by
  unfold idsNodup
  exact List.nodupDecidable _

/-- Element counts of the dense order list. -/
theorem count_denseOrders (n : Nat) (v : Int) :
    (denseOrders n).count v = if 1 ≤ v ∧ v ≤ (n : Int) then 1 else 0 := by
  induction n with
  | zero =>
    simp only [denseOrders, List.range_zero, List.map_nil, List.count_nil, Nat.cast_zero]
    split_ifs <;> omega
  | succ m ih =>
    rw [denseOrders, List.range_succ, List.map_append]
    rw [denseOrders] at ih
    simp only [List.map_cons, List.map_nil, List.count_append, List.count_singleton,
      beq_iff_eq]
    rw [ih]
    push_cast
    split_ifs <;> omega

/-- The permutation form and the count form of the invariant agree. -/
theorem buildOrderInvariant_iff (st : PipelineState) :
    buildOrderInvariant st ↔ countInv st := by
  unfold buildOrderInvariant countInv
  rw [List.perm_iff_count]
  constructor
  · intro h v
    rw [h v, count_denseOrders]
  · intro h v
    rw [h v, count_denseOrders]

/-- Counting after an upward range shift: a value v is produced either by
v - 1 lying inside the shifted range or by v itself lying outside it. -/
theorem count_map_shiftUp (lo hi : Int) (l : List Int) (v : Int) :
    (l.map (fun x => if x < hi ∧ lo ≤ x then x + 1 else x)).count v
      = (if lo ≤ v - 1 ∧ v - 1 < hi then l.count (v - 1) else 0)
        + (if ¬ (lo ≤ v ∧ v < hi) then l.count v else 0) := by
  induction l with
  | nil => simp
  | cons a l ih =>
    simp only [List.map_cons, List.count_cons, ih, beq_iff_eq]
    split_ifs <;> omega

/-- Counting after a downward range shift: a value v is produced either by
v + 1 lying inside the shifted range or by v itself lying outside it. -/
theorem count_map_shiftDown (lo hi : Int) (l : List Int) (v : Int) :
    (l.map (fun x => if x ≤ hi ∧ lo < x then x - 1 else x)).count v
      = (if lo < v + 1 ∧ v + 1 ≤ hi then l.count (v + 1) else 0)
        + (if ¬ (lo < v ∧ v ≤ hi) then l.count v else 0) := by
  induction l with
  | nil => simp
  | cons a l ih =>
    simp only [List.map_cons, List.count_cons, ih, beq_iff_eq]
    split_ifs <;> omega

/-- A left fold of max dominates its seed and every element. -/
theorem foldl_max_le (l : List Nat) (b : Nat) :
    b ≤ l.foldl max b ∧ ∀ a ∈ l, a ≤ l.foldl max b := by
  induction l generalizing b with
  | nil => exact ⟨le_refl b, by intro a ha; cases ha⟩
  | cons c l ih =>
    have h := ih (max b c)
    refine ⟨le_trans (le_max_left b c) h.1, ?_⟩
    intro a ha
    rcases List.mem_cons.mp ha with rfl | hmem
    · exact le_trans (le_max_right b a) h.1
    · exact h.2 a hmem

/-- The generated identity is not among the existing ones. -/
theorem freshId_not_mem (st : PipelineState) :
    freshId st ∉ st.stages.map (fun r => r.id) := by
  intro hmem
  have h := (foldl_max_le (st.stages.map (fun r => r.id)) 0).2 _ hmem
  unfold freshId at h
  omega

/-- In a table with pairwise distinct ids, filtering on the id of a present
row yields exactly that row. -/
theorem filter_eq_singleton_of_nodup {l : List StageRow}
    (h : (l.map (fun t => t.id)).Nodup) {r : StageRow} (hr : r ∈ l) :
    l.filter (fun t => t.id = r.id) = [r] := by
  induction l with
  | nil => cases hr
  | cons a l ih =>
    simp only [List.map_cons, List.nodup_cons] at h
    rcases List.mem_cons.mp hr with rfl | hmem
    · rw [List.filter_cons_of_pos (by simp)]
      have hnil : l.filter (fun t => t.id = r.id) = [] := by
        rw [List.filter_eq_nil_iff]
        intro t ht
        simp only [decide_eq_true_eq]
        intro he
        exact h.1 (he ▸ List.mem_map_of_mem (fun t => t.id) ht)
      rw [hnil]
    · have hne : ¬ a.id = r.id := by
        intro he
        exact h.1 (he ▸ List.mem_map_of_mem (fun t => t.id) hmem)
      rw [List.filter_cons_of_neg (by simpa using hne)]
      exact ih h.2 hmem

/-- In a table with pairwise distinct ids, the table is a permutation of a
present row consed onto the rows with a different id. -/
theorem perm_filter_ne {l : List StageRow}
    (h : (l.map (fun t => t.id)).Nodup) {r : StageRow} (hr : r ∈ l) :
    List.Perm l (r :: l.filter (fun t => t.id ≠ r.id)) := by
  have h1 := filter_eq_singleton_of_nodup h hr
  have h2 := (List.filter_append_perm (fun t : StageRow => t.id = r.id) l).symm
  have h3 : l.filter (fun x => !(decide (x.id = r.id))) = l.filter (fun t => t.id ≠ r.id) := by
    apply List.filter_congr
    intro x _
    simp [Ne, decide_not]
  rw [h1, h3] at h2
  exact h2

/-- Inserting through the append wrapper preserves the count invariant and
the id distinctness: the new row takes order count plus one and a fresh
id. -/
theorem insert_preserves (name : String) (prereqs : List Prerequisite) (now : Nat)
    (st : PipelineState) (h : countInv st ∧ idsNodup st) :
    countInv ((applyOp st (.insert name prereqs now)).getD st) ∧
    idsNodup ((applyOp st (.insert name prereqs now)).getD st) := by
  have hstages : ((applyOp st (.insert name prereqs now)).getD st).stages
      = st.stages ++ [⟨freshId st, name, (st.stages.length : Int) + 1, true⟩] := rfl
  constructor
  · intro v
    have hv := h.1 v
    unfold ordersOf at hv ⊢
    rw [hstages, List.map_append, List.count_append, List.length_append, hv]
    simp only [List.map_cons, List.map_nil, List.count_singleton, beq_iff_eq,
      List.length_cons, List.length_nil]
    push_cast
    split_ifs <;> omega
  · unfold idsNodup
    rw [hstages, List.map_append, List.nodup_append]
    refine ⟨h.2, by simp, ?_⟩
    intro x hx hx2
    simp only [List.map_cons, List.map_nil, List.mem_singleton] at hx2
    exact freshId_not_mem st (hx2 ▸ hx)

/-- DeleteStageByID on a present stage preserves the count invariant and the
id distinctness: the row disappears and the orders above it close the gap. -/
theorem delete_preserves (stageId : Nat) (st : PipelineState)
    (h : countInv st ∧ idsNodup st) :
    countInv ((applyOp st (.delete stageId)).getD st) ∧
    idsNodup ((applyOp st (.delete stageId)).getD st) := by
  cases hfind : findStage st stageId with
  | none =>
    have hid : (applyOp st (.delete stageId)).getD st = st := by
      simp [applyOp, hfind]
    rw [hid]
    exact h
  | some r =>
    have hr : r ∈ st.stages := by
      unfold findStage at hfind
      exact List.mem_of_find?_eq_some hfind
    have hres : ((applyOp st (.delete stageId)).getD st).stages
        = (st.stages.filter (fun t => t.id ≠ r.id)).map
            (fun t =>
              if t.buildOrder ≤ (st.stages.length : Int) ∧ r.buildOrder < t.buildOrder then
                { t with buildOrder := t.buildOrder - 1 }
              else t) := by
      simp only [applyOp, hfind]
      rfl
    have hperm : List.Perm st.stages (r :: st.stages.filter (fun t => t.id ≠ r.id)) :=
      perm_filter_ne h.2 hr
    have hcount : ∀ w : Int, (ordersOf st).count w
        = ((st.stages.filter (fun t => t.id ≠ r.id)).map (fun t => t.buildOrder)).count w
          + (if r.buildOrder = w then 1 else 0) := by
      intro w
      have hpo := (hperm.map (fun t => t.buildOrder)).count_eq w
      simpa [ordersOf, List.count_cons, beq_iff_eq] using hpo
    have hlen : st.stages.length
        = (st.stages.filter (fun t => t.id ≠ r.id)).length + 1 := by
      have := hperm.length_eq
      simpa using this
    have hbo : 1 ≤ r.buildOrder ∧ r.buildOrder ≤ (st.stages.length : Int) := by
      have hpos : 0 < (ordersOf st).count r.buildOrder := by
        rw [List.count_pos_iff]
        exact List.mem_map_of_mem (fun t => t.buildOrder) hr
      have hv := h.1 r.buildOrder
      by_cases hcase : 1 ≤ r.buildOrder ∧ r.buildOrder ≤ (st.stages.length : Int)
      · exact hcase
      · rw [if_neg hcase] at hv
        omega
    constructor
    · intro v
      unfold ordersOf
      rw [hres, List.map_map, List.length_map]
      have hmapeq : List.map
            ((fun t : StageRow => t.buildOrder) ∘ (fun t =>
              if t.buildOrder ≤ (st.stages.length : Int) ∧ r.buildOrder < t.buildOrder then
                { t with buildOrder := t.buildOrder - 1 }
              else t))
            (st.stages.filter (fun t => t.id ≠ r.id))
          = ((st.stages.filter (fun t => t.id ≠ r.id)).map (fun t => t.buildOrder)).map
              (fun x =>
                if x ≤ (st.stages.length : Int) ∧ r.buildOrder < x then x - 1 else x) := by
        rw [List.map_map]
        apply List.map_congr_left
        intro t _
        by_cases hc : t.buildOrder ≤ (st.stages.length : Int) ∧ r.buildOrder < t.buildOrder
          <;> simp [Function.comp, hc]
      rw [hmapeq, count_map_shiftDown]
      have e1 := hcount (v + 1)
      have e2 := hcount v
      rw [h.1 (v + 1)] at e1
      rw [h.1 v] at e2
      split_ifs at e1 e2 ⊢ <;> omega
    · unfold idsNodup
      rw [hres, List.map_map]
      have hmapid : List.map
            ((fun t : StageRow => t.id) ∘ (fun t =>
              if t.buildOrder ≤ (st.stages.length : Int) ∧ r.buildOrder < t.buildOrder then
                { t with buildOrder := t.buildOrder - 1 }
              else t))
            (st.stages.filter (fun t => t.id ≠ r.id))
          = (st.stages.filter (fun t => t.id ≠ r.id)).map (fun t => t.id) := by
        apply List.map_congr_left
        intro t _
        by_cases hc : t.buildOrder ≤ (st.stages.length : Int) ∧ r.buildOrder < t.buildOrder
          <;> simp [Function.comp, hc]
      rw [hmapid]
      have h2 : (st.stages.map (fun t : StageRow => t.id)).Nodup := h.2
      exact ((List.filter_sublist st.stages).map (fun t : StageRow => t.id)).nodup h2

/-- Splitting the order counts of a table at one row: the count of any
value is the count among the other rows plus the contribution of the row
itself. -/
theorem count_split (st : PipelineState) (h2 : idsNodup st) {r : StageRow}
    (hr : r ∈ st.stages) (w : Int) :
    (ordersOf st).count w
      = ((st.stages.filter (fun t => t.id ≠ r.id)).map (fun t => t.buildOrder)).count w
        + (if r.buildOrder = w then 1 else 0) := by
  have hpo := ((perm_filter_ne h2 hr).map (fun t => t.buildOrder)).count_eq w
  simpa [ordersOf, List.count_cons, beq_iff_eq] using hpo

/-- Removing one row by id from a table with distinct ids shortens it by
exactly one. -/
theorem length_split (st : PipelineState) (h2 : idsNodup st) {r : StageRow}
    (hr : r ∈ st.stages) :
    st.stages.length = (st.stages.filter (fun t => t.id ≠ r.id)).length + 1 := by
  have := (perm_filter_ne h2 hr).length_eq
  simpa using this

/-- Under the count invariant, the order of every present row lies between
one and the stage count. -/
theorem order_bounds (st : PipelineState) (h1 : countInv st) {r : StageRow}
    (hr : r ∈ st.stages) :
    1 ≤ r.buildOrder ∧ r.buildOrder ≤ (st.stages.length : Int) := by
  have hpos : 0 < (ordersOf st).count r.buildOrder := by
    rw [List.count_pos_iff]
    exact List.mem_map_of_mem (fun t => t.buildOrder) hr
  have hv := h1 r.buildOrder
  by_cases hcase : 1 ≤ r.buildOrder ∧ r.buildOrder ≤ (st.stages.length : Int)
  · exact hcase
  · rw [if_neg hcase] at hv
    omega

/-- MoveStage to an order inside the current range preserves the count
invariant and the id distinctness. -/
theorem move_preserves (stageId : Nat) (newOrder : Int) (now : Nat)
    (st : PipelineState) (h : countInv st ∧ idsNodup st)
    (hrange : 1 ≤ newOrder ∧ newOrder ≤ (st.stages.length : Int)) :
    countInv ((applyOp st (.move stageId newOrder now)).getD st) ∧
    idsNodup ((applyOp st (.move stageId newOrder now)).getD st) := by
  cases hfind : findStage st stageId with
  | none =>
    have hid : (applyOp st (.move stageId newOrder now)).getD st = st := by
      simp [applyOp, hfind]
    rw [hid]
    exact h
  | some r =>
    have hr : r ∈ st.stages := by
      unfold findStage at hfind
      exact List.mem_of_find?_eq_some hfind
    have hres : (applyOp st (.move stageId newOrder now)).getD st
        = MoveStage now (stageOf st r) newOrder st := by
      simp [applyOp, hfind]
    rw [hres]
    have hst := moveStage_stages_eq now (stageOf st r) newOrder st
    have hperm := perm_filter_ne h.2 hr
    have hrowo : ∀ t ∈ st.stages.filter (fun t => t.id ≠ r.id),
        moveRowF (stageOf st r) newOrder t
          = { t with buildOrder := moveShift r.buildOrder newOrder t.buildOrder } := by
      intro t ht
      have htne : ¬ t.id = r.id := by
        have hh := (List.mem_filter.mp ht).2
        simpa using hh
      simp [moveRowF, stageOf, htne]
    have hbo := order_bounds st h.1 hr
    have hlen := length_split st h.2 hr
    constructor
    · intro v
      unfold ordersOf
      rw [hst, List.length_map, List.map_map]
      rw [(hperm.map ((fun t : StageRow => t.buildOrder) ∘ moveRowF (stageOf st r) newOrder)).count_eq v]
      simp only [List.map_cons, List.count_cons]
      have hcomp : List.map ((fun t : StageRow => t.buildOrder) ∘ moveRowF (stageOf st r) newOrder)
            (st.stages.filter (fun t => t.id ≠ r.id))
          = ((st.stages.filter (fun t => t.id ≠ r.id)).map (fun t => t.buildOrder)).map
              (moveShift r.buildOrder newOrder) := by
        rw [List.map_map]
        apply List.map_congr_left
        intro t ht
        have hro := hrowo t ht
        simp [Function.comp, hro]
      have hhead : ((fun t : StageRow => t.buildOrder) ∘ moveRowF (stageOf st r) newOrder) r
          = newOrder := by
        simp [Function.comp, moveRowF, stageOf]
      rw [hcomp, hhead]
      have e1v := count_split st h.2 hr
      rcases lt_trichotomy newOrder r.buildOrder with hc | hc | hc
      · have hfun : moveShift r.buildOrder newOrder
            = fun x => if x < r.buildOrder ∧ newOrder ≤ x then x + 1 else x := by
          funext x
          simp [moveShift, hc]
        rw [hfun, count_map_shiftUp]
        have e1 := e1v (v - 1)
        have e2 := e1v v
        rw [h.1 (v - 1)] at e1
        rw [h.1 v] at e2
        simp only [beq_iff_eq]
        split_ifs at e1 e2 ⊢ <;> omega
      · have hfun : moveShift r.buildOrder newOrder = fun x => x := by
          funext x
          rw [hc]
          exact moveShift_self r.buildOrder x
        rw [hfun, List.map_id']
        have e2 := e1v v
        rw [h.1 v] at e2
        simp only [beq_iff_eq]
        split_ifs at e2 ⊢ <;> omega
      · have hc2 : ¬ newOrder < r.buildOrder := by omega
        have hfun : moveShift r.buildOrder newOrder
            = fun x => if x ≤ newOrder ∧ r.buildOrder < x then x - 1 else x := by
          funext x
          simp [moveShift, hc, hc2]
        rw [hfun, count_map_shiftDown]
        have e1 := e1v (v + 1)
        have e2 := e1v v
        rw [h.1 (v + 1)] at e1
        rw [h.1 v] at e2
        simp only [beq_iff_eq]
        split_ifs at e1 e2 ⊢ <;> omega
    · unfold idsNodup
      rw [hst, List.map_map]
      have hids : ((fun t : StageRow => t.id) ∘ moveRowF (stageOf st r) newOrder)
          = fun t : StageRow => t.id := by
        funext t
        by_cases hc : t.id = (stageOf st r).id <;> simp [Function.comp, moveRowF, hc]
      rw [hids]
      exact h.2

/-- Any single valid operation preserves the count invariant and the id
distinctness; a failed operation leaves the state unchanged. -/
theorem op_preserves (st : PipelineState) (op : StageOp)
    (h : countInv st ∧ idsNodup st) (hvalid : opValid st op) :
    countInv ((applyOp st op).getD st) ∧ idsNodup ((applyOp st op).getD st) := by
  cases op with
  | insert name prereqs now => exact insert_preserves name prereqs now st h
  | delete stageId => exact delete_preserves stageId st h
  | move stageId newOrder now => exact move_preserves stageId newOrder now st h hvalid

/-- Validity of one operation is decidable. -/
instance opValidDecidable (st : PipelineState) : (op : StageOp) → Decidable (opValid st op)
  | .insert _ _ _ => isTrue trivial
  | .delete _ => isTrue trivial
  | .move _ newOrder _ =>
      inferInstanceAs (Decidable (1 ≤ newOrder ∧ newOrder ≤ (st.stages.length : Int)))

/-- Validity of a trajectory is decidable. -/
instance validTrajectoryDecidable :
    (st : PipelineState) → (ops : List StageOp) → Decidable (validTrajectory st ops)
  | _, [] => isTrue trivial
  | st, op :: rest =>
      haveI := validTrajectoryDecidable ((applyOp st op).getD st) rest
      inferInstanceAs (Decidable (opValid st op ∧ _))

/-- C1 amended: starting from a pipeline that satisfies the build-order
invariant and whose stage ids are pairwise distinct, any sequence of
insert, delete and move operations preserves the invariant, provided every
move targets an order inside the current range one to the stage count.
Since the theorem holds for every sequence, it holds for every prefix, so
the invariant holds after each operation. -/
theorem buildOrder_invariant_preserved (st : PipelineState) (ops : List StageOp)
    (h1 : buildOrderInvariant st) (h2 : idsNodup st)
    (hv : validTrajectory st ops) : buildOrderInvariant (runOps st ops) := by
  suffices hs : ∀ (l : List StageOp) (s0 : PipelineState),
      countInv s0 ∧ idsNodup s0 → validTrajectory s0 l →
      countInv (runOps s0 l) ∧ idsNodup (runOps s0 l) by
    have hres := hs ops st ⟨(buildOrderInvariant_iff st).mp h1, h2⟩ hv
    exact (buildOrderInvariant_iff _).mpr hres.1
  intro l
  induction l with
  | nil => intro s0 hh _; exact hh
  | cons op rest ih =>
    intro s0 hh hvv
    exact ih _ (op_preserves s0 op hh hvv.1) hvv.2

/-- C1 counterexample: the claim without the range restriction is false on
the code. Starting from the empty pipeline, insert one stage (the invariant
holds, first conjunct), then move it to build order 3: MoveStage performs
the shift and the update without any range check, the operation completes
successfully (second conjunct), and the resulting single-stage pipeline has
build order set containing 3 instead of 1, violating the invariant (third
conjunct). -/
theorem invariant_violated_by_out_of_range_move :
    buildOrderInvariant (runOps emptyPipeline [.insert "s1" [] 1]) ∧
    (applyOp (runOps emptyPipeline [.insert "s1" [] 1]) (.move 1 3 2)).isSome = true ∧
    ¬ buildOrderInvariant (runOps emptyPipeline [.insert "s1" [] 1, .move 1 3 2]) := by
  decide

/-- C1 witness: the amended theorem applied to a concrete trajectory of two
appends followed by an in-range move of stage 2 to position 1. -/
theorem buildOrder_invariant_witness :
    buildOrderInvariant
      (runOps emptyPipeline [.insert "a" [] 3, .insert "b" [] 4, .move 2 1 5]) :=
  buildOrder_invariant_preserved emptyPipeline
    [.insert "a" [] 3, .insert "b" [] 4, .move 2 1 5] (by decide) (by decide) (by decide)

/-- C3 witness: the amended statement observed on stC3 with its stage 1. -/
theorem moveStage_same_order_witness :
    (MoveStage 1 sC3 sC3.buildOrder stC3).stages = stC3.stages ∧
    List.Perm (MoveStage 1 sC3 sC3.buildOrder stC3).prereqs stC3.prereqs ∧
    (MoveStage 1 sC3 sC3.buildOrder stC3).lastModified = 1 :=
  moveStage_same_order_preserves_content 1 sC3 stC3 (by decide) (by decide)

end CDS
